import Mathlib

/-!
# VitalsBeacon API — verification of the job queue, cache key, rate limiter and
progress stream

Shallow embedding of the scheduling core of the VitalsBeacon service:

* `src/queue.ts` — the bounded FIFO job queue with a concurrency-limited
  executor (`queueAudit`, `processQueue`, `getQueueStats`);
* `src/lighthouse.ts` — the 60-second timeout race around the external
  Lighthouse engine invocation and the browser-process cleanup
  (`runLighthouseAudit`);
* `src/index.ts` — the cache-key fingerprint (`createCacheKey`), the
  fixed-window rate limiter (`checkRateLimit`) and the category handling of
  the `/audit` route;
* the SSE progress stream (documented in the repository but with no source
  under `src/`) is modelled from the spec.

State mutated by the event loop (the waiting list, the active counter, the
per-client rate map, the in-place `Array.prototype.sort`) is embedded as
explicit state passing; the JavaScript code runs on a single-threaded event
loop, so each synchronous block of the source becomes one atomic transition.
-/

namespace VitalsBeacon

/-! ## Job queue (`src/queue.ts`) -/

/-- `MAX_CONCURRENT` from queue.ts. -/
def MAX_CONCURRENT : Nat := 2

/-- `MAX_QUEUE_SIZE` from queue.ts. -/
def MAX_QUEUE_SIZE : Nat := 10

/-- A queued job; jobs are identified by a number standing for the
`QueueItem` (its options and promise callbacks play no role in the
scheduling logic). -/
abbrev Job := Nat

/-- The executor's mutable state: the module-level `queue` array and the
`activeRequests` counter of queue.ts.  Two ghost fields record history for
stating ordering properties: `dispatched` lists the jobs handed to a worker
slot, in dispatch order, and `accepted` lists the jobs that passed the
admission check, in submission order.  Neither ghost field influences any
transition. -/
structure QueueState where
  queue : List Job
  activeRequests : Nat
  dispatched : List Job
  accepted : List Job
deriving DecidableEq, Repr

/-- State at process start: empty queue, no active requests. -/
def initialState : QueueState := ⟨[], 0, [], []⟩

/-- `processQueue` from queue.ts: return if the concurrency limit is
saturated or the queue is empty, otherwise shift the head of the waiting
list and occupy a slot for it.  The body after `await runLighthouseAudit`
(resolve/reject and the `finally` block) belongs to the settlement
transition `settleJob` below, since the `await` suspends. -/
def processQueue (s : QueueState) : QueueState :=
  if MAX_CONCURRENT ≤ s.activeRequests ∨ s.queue.length = 0 then s
  else
    match s.queue with
    | [] => s
    | item :: rest =>
      { queue := rest
        activeRequests := s.activeRequests + 1
        dispatched := s.dispatched ++ [item]
        accepted := s.accepted }

/-- Immediate outcome of `queueAudit`: the promise executor either rejects
synchronously with `new Error('Queue is full')` or enqueues the item. -/
inductive SubmitResult where
  | accepted
  | rejected (msg : String)
deriving DecidableEq, Repr

/-- `queueAudit` from queue.ts: the synchronous part of the promise
executor — reject when `queue.length >= MAX_QUEUE_SIZE` (before any
insertion, leaving the state untouched), otherwise push the item and call
`processQueue`. -/
def queueAudit (j : Job) (s : QueueState) : SubmitResult × QueueState :=
  if MAX_QUEUE_SIZE ≤ s.queue.length then (.rejected "Queue is full", s)
  else
    (.accepted,
     processQueue
       { queue := s.queue ++ [j]
         activeRequests := s.activeRequests
         dispatched := s.dispatched
         accepted := s.accepted ++ [j] })

/-- The `finally` block of `processQueue` after a dispatched job settles
(resolve, reject, or timeout): `activeRequests--` followed by the
synchronous recursive `processQueue()` call. -/
def settleJob (s : QueueState) : QueueState :=
  processQueue { s with activeRequests := s.activeRequests - 1 }

/-- Submit a list of jobs in sequence, collecting each admission outcome. -/
def submitAll (js : List Job) (s : QueueState) : List SubmitResult × QueueState :=
  match js with
  | [] => ([], s)
  | j :: rest =>
    let r := queueAudit j s
    let rs := submitAll rest r.2
    (r.1 :: rs.1, rs.2)

/-- One event-loop transition of the executor: a client submission, or the
settlement of one active job (success, failure, or timeout — the state
change is the same). -/
inductive Step : QueueState → QueueState → Prop where
  | submit (j : Job) (s : QueueState) : Step s (queueAudit j s).2
  | settle (s : QueueState) (h : 0 < s.activeRequests) : Step s (settleJob s)

/-- States reachable from process start by submissions and settlements. -/
inductive Reachable : QueueState → Prop where
  | init : Reachable initialState
  | step {s t : QueueState} : Reachable s → Step s t → Reachable t

/-- The executor's inductive invariant: both capacity bounds, no idle slot
while jobs wait, and the dispatch history followed by the waiting list is
exactly the admission history (FIFO). -/
def Inv (s : QueueState) : Prop :=
  s.activeRequests ≤ MAX_CONCURRENT ∧
  s.queue.length ≤ MAX_QUEUE_SIZE ∧
  (s.activeRequests < MAX_CONCURRENT → s.queue = []) ∧
  s.dispatched ++ s.queue = s.accepted

theorem processQueue_of_saturated {s : QueueState}
    (h : MAX_CONCURRENT ≤ s.activeRequests) : processQueue s = s := by
  unfold processQueue
  rw [if_pos (Or.inl h)]

theorem processQueue_of_empty {s : QueueState} (h : s.queue = []) :
    processQueue s = s := by
  unfold processQueue
  rw [if_pos (Or.inr (by rw [h]; rfl))]

theorem processQueue_dispatch {s : QueueState} {j : Job} {rest : List Job}
    (hq : s.queue = j :: rest) (ha : s.activeRequests < MAX_CONCURRENT) :
    processQueue s =
      { queue := rest
        activeRequests := s.activeRequests + 1
        dispatched := s.dispatched ++ [j]
        accepted := s.accepted } := by
  unfold processQueue
  rw [if_neg]
  · rw [hq]
  · rw [hq]
    push_neg
    exact ⟨ha, by simp⟩

theorem inv_initial : Inv initialState := by
  refine ⟨by decide, by decide, fun _ => rfl, rfl⟩

theorem step_inv {s t : QueueState} (hInv : Inv s) (hst : Step s t) : Inv t := by
  obtain ⟨hA, hQ, hIdle, hFifo⟩ := hInv
  cases hst with
  | submit j s =>
    show Inv (queueAudit j s).2
    unfold queueAudit
    by_cases hfull : MAX_QUEUE_SIZE ≤ s.queue.length
    · rw [if_pos hfull]
      exact ⟨hA, hQ, hIdle, hFifo⟩
    · rw [if_neg hfull]
      dsimp only
      by_cases hsat : MAX_CONCURRENT ≤ s.activeRequests
      · have hsat' : MAX_CONCURRENT ≤ (QueueState.mk (s.queue ++ [j]) s.activeRequests
            s.dispatched (s.accepted ++ [j])).activeRequests := hsat
        rw [processQueue_of_saturated hsat']
        refine ⟨hA, ?_, ?_, ?_⟩
        · simpa using not_le.mp hfull
        · intro hlt
          exact absurd hsat (not_le.mpr hlt)
        · dsimp only
          rw [← List.append_assoc, hFifo]
      · have halt : s.activeRequests < MAX_CONCURRENT := not_le.mp hsat
        have hempty : s.queue = [] := hIdle halt
        have hq' : (QueueState.mk (s.queue ++ [j]) s.activeRequests s.dispatched
            (s.accepted ++ [j])).queue = j :: [] := by
          dsimp only
          rw [hempty]
          rfl
        rw [processQueue_dispatch hq' halt]
        refine ⟨halt, by simp, fun _ => rfl, ?_⟩
        dsimp only
        have hde : s.dispatched = s.accepted := by simpa [hempty] using hFifo
        simp [hde]
  | settle s h =>
    show Inv (settleJob s)
    unfold settleJob
    rcases hqe : s.queue with _ | ⟨j, rest⟩
    · have hq' : (QueueState.mk ([] : List Job) (s.activeRequests - 1) s.dispatched
          s.accepted).queue = [] := rfl
      rw [processQueue_of_empty hq']
      refine ⟨le_trans (Nat.sub_le _ _) hA, by dsimp only; decide, fun _ => rfl, ?_⟩
      dsimp only
      rw [hqe] at hFifo
      exact hFifo
    · have hsat : MAX_CONCURRENT ≤ s.activeRequests := by
        by_contra hlt
        rw [hIdle (not_le.mp hlt)] at hqe
        exact List.noConfusion hqe
      have ha2 : s.activeRequests = MAX_CONCURRENT := le_antisymm hA hsat
      have hq' : (QueueState.mk (j :: rest) (s.activeRequests - 1) s.dispatched
          s.accepted).queue = j :: rest := rfl
      have halt : (QueueState.mk (j :: rest) (s.activeRequests - 1) s.dispatched
          s.accepted).activeRequests < MAX_CONCURRENT := by
        dsimp only
        rw [ha2]
        decide
      rw [processQueue_dispatch hq' halt]
      refine ⟨?_, ?_, ?_, ?_⟩
      · dsimp only
        rw [ha2]
        decide
      · dsimp only
        have hlen : s.queue.length ≤ MAX_QUEUE_SIZE := hQ
        rw [hqe, List.length_cons] at hlen
        exact Nat.le_of_succ_le hlen
      · intro hlt
        dsimp only at hlt
        rw [ha2] at hlt
        exact absurd hlt (by decide)
      · dsimp only
        rw [← hFifo, hqe]
        simp

theorem reachable_inv {s : QueueState} (h : Reachable s) : Inv s := by
  induction h with
  | init => exact inv_initial
  | step _ hst ih => exact step_inv ih hst

/-- The state after two accepted submissions from start: both worker slots
busy, waiting list empty. -/
def busyState : QueueState := (queueAudit 1 (queueAudit 0 initialState).2).2

/-- The state after three accepted submissions from start: both slots busy
and job 2 waiting. -/
def threeState : QueueState := (queueAudit 2 busyState).2

theorem reachable_busyState : Reachable busyState :=
  Reachable.step (Reachable.step Reachable.init (Step.submit 0 initialState))
    (Step.submit 1 (queueAudit 0 initialState).2)

theorem reachable_threeState : Reachable threeState :=
  Reachable.step reachable_busyState (Step.submit 2 busyState)

/-! ## Data model (`src/types.ts`)

`VitalMetric.numericValue` is a floating-point millisecond value in the
source; it is abstracted to `Option Nat` here (no claim inspects it), and
the string-literal union of `rating` becomes an inductive type. -/

inductive VitalRating where
  | good
  | needsImprovement
  | poor
  | unknown
deriving DecidableEq, Repr

structure VitalMetric where
  value : String := "N/A"
  score : Nat := 0
  numericValue : Option Nat := none
  rating : Option VitalRating := none
deriving DecidableEq, Repr

/-- The `scores` object of `AuditResult`: each category score is present
only when the category was requested. -/
structure Scores where
  performance : Option Nat := none
  accessibility : Option Nat := none
  bestPractices : Option Nat := none
  seo : Option Nat := none
deriving DecidableEq, Repr

structure CoreWebVitals where
  largestContentfulPaint : VitalMetric := {}
  firstContentfulPaint : VitalMetric := {}
  speedIndex : VitalMetric := {}
  timeToInteractive : VitalMetric := {}
  totalBlockingTime : VitalMetric := {}
  cumulativeLayoutShift : VitalMetric := {}
deriving DecidableEq, Repr

structure AuditOptions where
  url : String
  categories : List String
deriving DecidableEq, Repr

structure AuditResult where
  url : String
  timestamp : String
  scores : Scores
  coreWebVitals : CoreWebVitals
  categories : List String
deriving DecidableEq, Repr

/-! ## Timeout race and browser cleanup (`src/lighthouse.ts`) -/

/-- `AUDIT_TIMEOUT` from lighthouse.ts (milliseconds). -/
def AUDIT_TIMEOUT : Nat := 60000

/-- The message of the rejection produced by `timeoutPromise`. -/
def timedOutMsg : String := "Audit timed out after 60 seconds"

/-- The success value built at the end of the audit async function:
`return { url: options.url, timestamp, scores, coreWebVitals,
categories: options.categories }`. -/
def mkAuditResult (options : AuditOptions) (timestamp : String) (scores : Scores)
    (coreWebVitals : CoreWebVitals) : AuditResult :=
  { url := options.url
    timestamp := timestamp
    scores := scores
    coreWebVitals := coreWebVitals
    categories := options.categories }

/-- One execution of the `auditPromise` async function, as observed from
outside: either `chromeLauncher.launch` rejects at time `t` (so `chrome`
stays `null`), or the launch succeeds and the `lighthouse(...)` invocation
settles at absolute time `t` with a result or error, or that invocation
never settles.  Times are milliseconds since the call to
`runLighthouseAudit`. -/
inductive AuditPromiseBehavior where
  | launchFails (t : Nat) (msg : String)
  | engineSettles (t : Nat) (result : Except String AuditResult)
  | engineHangs
deriving Repr

/-- `Promise.race([auditPromise, timeoutPromise])`: the audit side wins only
when it settles strictly before the 60-second timer fires; otherwise the
race rejects with the timeout error and any later settlement of the audit
side is discarded by the race. -/
def runLighthouseAudit : AuditPromiseBehavior → Except String AuditResult
  | .launchFails t msg => if t < AUDIT_TIMEOUT then .error msg else .error timedOutMsg
  | .engineSettles t r => if t < AUDIT_TIMEOUT then r else .error timedOutMsg
  | .engineHangs => .error timedOutMsg

/-- Whether this execution spawned a browser process. -/
def chromeLaunched : AuditPromiseBehavior → Bool
  | .launchFails _ _ => false
  | .engineSettles _ _ => true
  | .engineHangs => true

/-- Whether `chrome.kill()` ever runs.  The kill sits in the `finally` block
of the audit async function, so it runs exactly when that function exits:
when the `lighthouse(...)` invocation settles (with a value or an error),
and never if it never settles — the timeout branch of the race does not
touch the browser process. -/
def chromeKilled : AuditPromiseBehavior → Bool
  | .launchFails _ _ => false
  | .engineSettles _ _ => true
  | .engineHangs => false

/-! ## Cache-key fingerprint (`src/index.ts`, `createCacheKey`)

JavaScript's parameterless `Array.prototype.sort` compares strings by
UTF-16 code units; `charListLe` is that comparison (identical to
per-character comparison for the ASCII category names the service accepts).
It is defined structurally so that proofs can evaluate it. -/

def charListLe : List Char → List Char → Bool
  | [], _ => true
  | _ :: _, [] => false
  | a :: as, b :: bs =>
    if a < b then true
    else if b < a then false
    else charListLe as bs

/-- The string ordering used by `categories.sort()`. -/
def jsLe (a b : String) : Prop := charListLe a.data b.data = true

instance : DecidableRel jsLe := fun a b => by
  unfold jsLe
  infer_instance

/-- `categories.sort()` — sorting with JavaScript's default comparator. -/
def jsSort (l : List String) : List String := List.insertionSort jsLe l

/-- `createCacheKey` from index.ts.  `crypto.createHash('md5')...` is an
external library call, abstracted as the parameter `md5hex8` (the first 8
hex characters of the MD5 of the url).  Because `categories.sort()` sorts
the caller's array in place, the function returns, besides the key, the
contents of the caller's `categories` array after the call. -/
def createCacheKey (md5hex8 : String → String) (url : String)
    (categories : List String) : String × List String :=
  let sorted := jsSort categories
  ("audit:" ++ md5hex8 url ++ ":" ++ String.intercalate "," sorted, sorted)

theorem charListLe_total : ∀ as bs, charListLe as bs = true ∨ charListLe bs as = true := by
  intro as
  induction as with
  | nil => intro bs; left; rfl
  | cons a as ih =>
    intro bs
    cases bs with
    | nil => right; rfl
    | cons b bs =>
      rcases lt_trichotomy a b with h | h | h
      · left; simp [charListLe, h]
      · subst h
        rcases ih bs with h' | h'
        · left; simp [charListLe, lt_irrefl, h']
        · right; simp [charListLe, lt_irrefl, h']
      · right; simp [charListLe, h]

theorem charListLe_trans : ∀ as bs cs, charListLe as bs = true → charListLe bs cs = true →
    charListLe as cs = true := by
  intro as
  induction as with
  | nil => intro bs cs _ _; rfl
  | cons a as ih =>
    intro bs cs h₁ h₂
    cases bs with
    | nil => simp [charListLe] at h₁
    | cons b bs =>
      cases cs with
      | nil => simp [charListLe] at h₂
      | cons c cs =>
        simp only [charListLe] at h₁ h₂ ⊢
        by_cases hab : a < b
        · by_cases hbc : b < c
          · simp [lt_trans hab hbc]
          · by_cases hcb : c < b
            · simp [hbc, hcb] at h₂
            · have hbc' : b = c := le_antisymm (not_lt.mp hcb) (not_lt.mp hbc)
              subst hbc'
              simp [hab]
        · by_cases hba : b < a
          · simp [hab, hba] at h₁
          · have hab' : a = b := le_antisymm (not_lt.mp hba) (not_lt.mp hab)
            subst hab'
            simp only [lt_irrefl, if_false] at h₁
            by_cases hbc : a < c
            · simp [hbc]
            · by_cases hcb : c < a
              · simp [hbc, hcb] at h₂
              · have hbc' : a = c := le_antisymm (not_lt.mp hcb) (not_lt.mp hbc)
                subst hbc'
                simp only [lt_irrefl, if_false] at h₂ ⊢
                exact ih bs cs h₁ h₂

theorem charListLe_antisymm : ∀ as bs, charListLe as bs = true → charListLe bs as = true →
    as = bs := by
  intro as
  induction as with
  | nil =>
    intro bs h₁ h₂
    cases bs with
    | nil => rfl
    | cons b bs => simp [charListLe] at h₂
  | cons a as ih =>
    intro bs h₁ h₂
    cases bs with
    | nil => simp [charListLe] at h₁
    | cons b bs =>
      simp only [charListLe] at h₁ h₂
      by_cases hab : a < b
      · simp [hab, lt_asymm hab] at h₂
      · by_cases hba : b < a
        · simp [hab, hba] at h₁
        · have hab' : a = b := le_antisymm (not_lt.mp hba) (not_lt.mp hab)
          subst hab'
          simp only [lt_irrefl, if_false] at h₁ h₂
          rw [ih bs h₁ h₂]

instance : IsTotal String jsLe := ⟨fun a b => charListLe_total a.data b.data⟩

instance : IsTrans String jsLe := ⟨fun a b c => charListLe_trans a.data b.data c.data⟩

instance : IsAntisymm String jsLe :=
  ⟨fun a b h₁ h₂ => String.ext (charListLe_antisymm a.data b.data h₁ h₂)⟩

/-- Two orderings of the same multiset of strings have the same `jsSort`. -/
theorem jsSort_eq_of_perm {l₁ l₂ : List String} (h : l₁.Perm l₂) :
    jsSort l₁ = jsSort l₂ :=
  List.eq_of_perm_of_sorted
    (((List.perm_insertionSort jsLe l₁).trans h).trans
      (List.perm_insertionSort jsLe l₂).symm)
    (List.sorted_insertionSort jsLe l₁)
    (List.sorted_insertionSort jsLe l₂)

/-! ## `/audit` route: category parsing and flow into the engine
(`src/index.ts`) -/

/-- `validCategories` from the `/audit` handler. -/
def validCategories : List String :=
  ["performance", "accessibility", "best-practices", "seo"]

/-- `categoriesParam.split(',')`: split a character list at commas. -/
def splitCommaAux : List Char → List Char → List (List Char)
  | [], acc => [acc.reverse]
  | c :: cs, acc =>
    if c = ',' then acc.reverse :: splitCommaAux cs []
    else splitCommaAux cs (c :: acc)

/-- `.trim()`: strip leading and trailing whitespace. -/
def trimCharList (l : List Char) : List Char :=
  ((l.dropWhile Char.isWhitespace).reverse.dropWhile Char.isWhitespace).reverse

/-- `categoriesParam.split(',').map(c => c.trim())`. -/
def splitCommaTrim (s : String) : List String :=
  (splitCommaAux s.data []).map fun cs => String.mk (trimCharList cs)

/-- Category selection of the `/audit` handler: `quick=true` forces
`['performance']`; otherwise an explicit `categories` parameter is split
and trimmed; otherwise all four categories are used. -/
def parseCategories (quick : Bool) (categoriesParam : Option String) : List String :=
  if quick then ["performance"]
  else
    match categoriesParam with
    | some p => splitCommaTrim p
    | none => validCategories

/-- Outcome of the category-handling slice of the `/audit` handler. -/
inductive HandlerResult where
  | invalidCategories (invalid : List String)
  | ok (cacheKey : String) (result : AuditResult)
deriving DecidableEq, Repr

/-- The `/audit` handler from category parsing to the report, on the
cache-miss path where the job runs: validate the categories, compute the
cache key (which sorts the `categories` array in place), then call
`queueAudit({ url, categories })` with that same array; the engine's
success report carries `categories: options.categories`.  The timestamp,
scores and vitals produced by the engine are parameters. -/
def auditCategoryFlow (md5hex8 : String → String) (url : String) (quick : Bool)
    (categoriesParam : Option String) (timestamp : String) (scores : Scores)
    (coreWebVitals : CoreWebVitals) : HandlerResult :=
  let categories := parseCategories quick categoriesParam
  let invalidCats := categories.filter fun c => !(validCategories.contains c)
  if 0 < invalidCats.length then .invalidCategories invalidCats
  else
    let keyAndSorted := createCacheKey md5hex8 url categories
    .ok keyAndSorted.1
      (mkAuditResult ⟨url, keyAndSorted.2⟩ timestamp scores coreWebVitals)

/-! ## Rate limiter (`src/index.ts`, `checkRateLimit`) -/

/-- `RATE_LIMIT` from index.ts: 50 requests per hour. -/
def RATE_LIMIT : Nat := 50

/-- `RATE_WINDOW` from index.ts: one hour in milliseconds. -/
def RATE_WINDOW : Nat := 60 * 60 * 1000

/-- One entry of the `rateLimits` map: `{ count, resetAt }`. -/
structure RateEntry where
  count : Nat
  resetAt : Nat
deriving DecidableEq, Repr

/-- The `rateLimits` map, keyed by client ip. -/
def RateLimits : Type := String → Option RateEntry

/-- The fresh map at process start. -/
def emptyRateLimits : RateLimits := fun _ => none

/-- The value returned by `checkRateLimit`: `{ allowed, resetIn? }`, with
`resetIn` in whole minutes (`Math.ceil((resetAt - now) / 1000 / 60)`). -/
structure RateCheckResult where
  allowed : Bool
  resetIn : Option Nat := none
deriving DecidableEq, Repr

/-- `checkRateLimit` from index.ts, with `Date.now()` passed in as `now` and
the mutation of the `rateLimits` map made explicit in the returned map. -/
def checkRateLimit (now : Nat) (ip : String) (m : RateLimits) :
    RateCheckResult × RateLimits :=
  match m ip with
  | none =>
    ({ allowed := true }, fun k => if k = ip then some ⟨1, now + RATE_WINDOW⟩ else m k)
  | some limit =>
    if limit.resetAt < now then
      ({ allowed := true }, fun k => if k = ip then some ⟨1, now + RATE_WINDOW⟩ else m k)
    else if RATE_LIMIT ≤ limit.count then
      ({ allowed := false, resetIn := some ((limit.resetAt - now + 59999) / 60000) }, m)
    else
      ({ allowed := true }, fun k => if k = ip then some ⟨limit.count + 1, limit.resetAt⟩ else m k)

/-- Run a sequence of `checkRateLimit` calls for one client at the given
times, collecting each outcome. -/
def runChecks (ip : String) (times : List Nat) (m : RateLimits) :
    List RateCheckResult × RateLimits :=
  match times with
  | [] => ([], m)
  | t :: ts =>
    let r := checkRateLimit t ip m
    let rs := runChecks ip ts r.2
    (r.1 :: rs.1, rs.2)

/-! ## Progress stream (Progress Reporter)

Modelled from the spec: the repository documents an SSE streaming endpoint
("SSE streaming - real-time progress updates") but its source is not under
`src/`; the spec describes a per-job single-path state machine
`queued → processing → {complete | error}` whose events are emitted in that
order, at most once each, with the stream terminating after `complete` or
`error`.  Event payloads (queue position, estimated wait, report, message)
are abstracted away. -/

inductive ProgressEvent where
  | queued
  | processing
  | complete
  | error
deriving DecidableEq, Repr

/-- Modelled from the spec: the full event sequence a streaming client
observes for one job — `queued` at admission, `processing` at dispatch,
then `complete` on success or `error` on failure, and nothing afterwards. -/
def progressStream (success : Bool) : List ProgressEvent :=
  [.queued, .processing, if success then .complete else .error]

/-! ## Shared lemmas -/

/-- Settling a job in a reachable state whose waiting list is non-empty
dispatches the head of the list into the freed slot within the same
settlement step: the transition from `activeRequests--` to the recursive
`processQueue()` is synchronous, so the slot is never observed free. -/
theorem settleJob_dispatches {s : QueueState} (hs : Reachable s) {j : Job}
    {rest : List Job} (hqe : s.queue = j :: rest) :
    settleJob s = ⟨rest, s.activeRequests, s.dispatched ++ [j], s.accepted⟩ := by
  obtain ⟨hA, _, hIdle, _⟩ := reachable_inv hs
  have hsat : MAX_CONCURRENT ≤ s.activeRequests := by
    by_contra hlt
    rw [hIdle (not_le.mp hlt)] at hqe
    exact List.noConfusion hqe
  have ha2 : s.activeRequests = MAX_CONCURRENT := le_antisymm hA hsat
  unfold settleJob
  have hq' : (QueueState.mk s.queue (s.activeRequests - 1) s.dispatched
      s.accepted).queue = j :: rest := hqe
  have halt : (QueueState.mk s.queue (s.activeRequests - 1) s.dispatched
      s.accepted).activeRequests < MAX_CONCURRENT := by
    dsimp only
    rw [ha2]
    decide
  rw [processQueue_dispatch hq' halt]
  have h1 : s.activeRequests - 1 + 1 = s.activeRequests := by
    have h2 : 2 ≤ s.activeRequests := hsat
    omega
  rw [h1]

/-- Sample scores object for concrete instantiations. -/
def sampleScores : Scores := {}

/-- Sample Core Web Vitals object for concrete instantiations. -/
def sampleVitals : CoreWebVitals := {}

/-- A `rateLimits` map holding one client at its limit. -/
def deniedEntryMap : RateLimits :=
  fun k => if k = "c" then some ⟨50, 3600000⟩ else none

/-! ## Claims -/

/-- C1: at every reachable state of the Job Queue & Executor the number of
concurrently executing jobs is at most `MAX_CONCURRENT` (2) and the waiting
list holds at most `MAX_QUEUE_SIZE` (10) entries.  Reachability is closure
of the initial state under every operation (submission with its possible
dispatch, and settlement with its redispatch), so the bounds are preserved
by each of them. -/
theorem queue_capacity_bounds {s : QueueState} (hs : Reachable s) :
    s.activeRequests ≤ MAX_CONCURRENT ∧ s.queue.length ≤ MAX_QUEUE_SIZE :=
  ⟨(reachable_inv hs).1, (reachable_inv hs).2.1⟩

theorem queue_capacity_bounds_witness :
    threeState.activeRequests ≤ MAX_CONCURRENT ∧
    threeState.queue.length ≤ MAX_QUEUE_SIZE :=
  queue_capacity_bounds reachable_threeState

/-- C2: `queueAudit` rejects with the "Queue is full" error exactly when the
waiting list already holds `MAX_QUEUE_SIZE` entries, leaving the whole state
(in particular the waiting list) unchanged — the check precedes the
insertion; below the bound the submission is accepted.  Consequently,
submitting `MAX_QUEUE_SIZE + 1` jobs while both slots are busy accepts the
first ten and rejects exactly the eleventh. -/
theorem queueAudit_admission (j : Job) (s : QueueState) :
    (MAX_QUEUE_SIZE ≤ s.queue.length →
      queueAudit j s = (SubmitResult.rejected "Queue is full", s)) ∧
    (s.queue.length < MAX_QUEUE_SIZE → (queueAudit j s).1 = .accepted) ∧
    (submitAll [2, 3, 4, 5, 6, 7, 8, 9, 10, 11, 12] busyState).1 =
      List.replicate 10 .accepted ++ [.rejected "Queue is full"] := by
  refine ⟨?_, ?_, ?_⟩
  · intro h
    unfold queueAudit
    rw [if_pos h]
  · intro h
    unfold queueAudit
    rw [if_neg (not_le.mpr h)]
  · decide

theorem queueAudit_admission_witness :
    queueAudit 13 (submitAll [2, 3, 4, 5, 6, 7, 8, 9, 10, 11, 12] busyState).2 =
      (SubmitResult.rejected "Queue is full",
       (submitAll [2, 3, 4, 5, 6, 7, 8, 9, 10, 11, 12] busyState).2) :=
  (queueAudit_admission 13 _).1 (by decide)

/-- C3: a dispatched job whose engine invocation does not settle within the
60-second deadline settles with the timed-out rejection — and it does so for
every possible later engine result `r`, i.e. the engine's eventual
settlement is discarded by the race; the slot such a job occupied is handed
to the head of the waiting list within the very settlement step, so the next
queued job is dispatched immediately. -/
theorem timeout_rejects_and_releases_slot (t : Nat) (r : Except String AuditResult)
    {s : QueueState} (hs : Reachable s) (hq : s.queue ≠ [])
    (ht : AUDIT_TIMEOUT ≤ t) :
    runLighthouseAudit (.engineSettles t r) = .error timedOutMsg ∧
    runLighthouseAudit .engineHangs = .error timedOutMsg ∧
    (settleJob s).activeRequests = s.activeRequests ∧
    (settleJob s).queue = s.queue.tail ∧
    (settleJob s).dispatched = s.dispatched ++ s.queue.take 1 := by
  rcases hqe : s.queue with _ | ⟨j, rest⟩
  · exact absurd hqe hq
  · rw [settleJob_dispatches hs hqe]
    refine ⟨?_, rfl, rfl, rfl, rfl⟩
    unfold runLighthouseAudit
    dsimp only
    rw [if_neg (not_lt.mpr ht)]

theorem timeout_rejects_and_releases_slot_witness :
    runLighthouseAudit (.engineSettles 60000 (.error "late")) = .error timedOutMsg ∧
    runLighthouseAudit .engineHangs = .error timedOutMsg ∧
    (settleJob threeState).activeRequests = threeState.activeRequests ∧
    (settleJob threeState).queue = threeState.queue.tail ∧
    (settleJob threeState).dispatched = threeState.dispatched ++ threeState.queue.take 1 :=
  timeout_rejects_and_releases_slot 60000 (.error "late") reachable_threeState
    (by decide) (by decide)

/-- C4 (code bug): evaluation of the timeout race on the failing behavior.
The browser is launched and the timeout wins the race (the caller gets the
timed-out rejection), yet `chrome.kill()` never runs: the kill sits in the
`finally` of the audit async function, which only executes once the hanging
`lighthouse(...)` invocation settles — resource release is conditional on
the engine settling, not unconditional on the race outcome as specified. -/
theorem chrome_not_killed_when_engine_hangs :
    chromeLaunched .engineHangs = true ∧
    runLighthouseAudit .engineHangs = .error timedOutMsg ∧
    chromeKilled .engineHangs = false :=
  ⟨rfl, rfl, rfl⟩

/-- C5 (amended): the cache fingerprint is a deterministic function of the
target url and the sorted category list, invariant under reordering: any
two category lists that are permutations of each other (same elements with
the same multiplicities) produce the identical fingerprint.  Duplicates are
not removed, so lists denoting the same set with different multiplicities
may produce different fingerprints (see the counterexample). -/
theorem createCacheKey_perm_invariant (md5hex8 : String → String) (url : String)
    {l₁ l₂ : List String} (h : l₁.Perm l₂) :
    (createCacheKey md5hex8 url l₁).1 = (createCacheKey md5hex8 url l₂).1 := by
  unfold createCacheKey
  rw [jsSort_eq_of_perm h]

theorem createCacheKey_perm_invariant_witness :
    (createCacheKey (fun _ => "0a1b2c3d") "https://example.com"
        ["seo", "performance"]).1 =
    (createCacheKey (fun _ => "0a1b2c3d") "https://example.com"
        ["performance", "seo"]).1 :=
  createCacheKey_perm_invariant (fun _ => "0a1b2c3d") "https://example.com" (by decide)

/-- C5 counterexample: `["seo", "seo"]` and `["seo"]` denote the same
category set, yet `createCacheKey` gives them different fingerprints — the
code sorts and joins the list without de-duplicating it. -/
theorem createCacheKey_duplicates_counterexample :
    (["seo", "seo"] : List String).toFinset = (["seo"] : List String).toFinset ∧
    (createCacheKey (fun _ => "0a1b2c3d") "https://example.com" ["seo", "seo"]).1 ≠
    (createCacheKey (fun _ => "0a1b2c3d") "https://example.com" ["seo"]).1 :=
  ⟨by decide, by decide⟩

/-- C6 (amended): `checkRateLimit` implements a fixed (non-sliding) window.
For an unknown client or an elapsed window (`resetAt < now`) the check is
allowed and a fresh window starts with count 1; within the window, checks
below the limit are allowed and increment the count; at or above the limit
the check is denied with `resetIn = ceil((resetAt - now) / 60000)` minutes
and no state change, a value that is positive whenever the denial occurs
strictly before the window's reset instant (at `now = resetAt` it is 0 —
see the counterexample).  Concretely, 50 checks in one window are allowed,
the 51st (strictly inside the window) is denied with a positive `resetIn`,
and a check after the window has elapsed is allowed again with count 1 and
a new window. -/
theorem checkRateLimit_fixed_window (now : Nat) (ip : String) (m : RateLimits)
    (e : RateEntry) :
    (m ip = none →
      checkRateLimit now ip m =
        ({ allowed := true },
         fun k => if k = ip then some ⟨1, now + RATE_WINDOW⟩ else m k)) ∧
    (m ip = some e → e.resetAt < now →
      checkRateLimit now ip m =
        ({ allowed := true },
         fun k => if k = ip then some ⟨1, now + RATE_WINDOW⟩ else m k)) ∧
    (m ip = some e → now ≤ e.resetAt → e.count < RATE_LIMIT →
      checkRateLimit now ip m =
        ({ allowed := true },
         fun k => if k = ip then some ⟨e.count + 1, e.resetAt⟩ else m k)) ∧
    (m ip = some e → now ≤ e.resetAt → RATE_LIMIT ≤ e.count →
      checkRateLimit now ip m =
        ({ allowed := false, resetIn := some ((e.resetAt - now + 59999) / 60000) }, m) ∧
      (now < e.resetAt → 0 < (e.resetAt - now + 59999) / 60000)) ∧
    (runChecks "c" (List.replicate 50 0 ++ [10, 3600001]) emptyRateLimits).1 =
      List.replicate 50 { allowed := true } ++
        [{ allowed := false, resetIn := some 60 }, { allowed := true }] ∧
    (runChecks "c" (List.replicate 50 0 ++ [10, 3600001]) emptyRateLimits).2 "c" =
      some ⟨1, 3600001 + RATE_WINDOW⟩ := by
  refine ⟨?_, ?_, ?_, ?_, by decide, by decide⟩
  · intro h
    unfold checkRateLimit
    rw [h]
  · intro h hlt
    unfold checkRateLimit
    rw [h]
    dsimp only
    rw [if_pos hlt]
  · intro h hle hcount
    unfold checkRateLimit
    rw [h]
    dsimp only
    rw [if_neg (not_lt.mpr hle), if_neg (not_le.mpr hcount)]
  · intro h hle hcount
    constructor
    · unfold checkRateLimit
      rw [h]
      dsimp only
      rw [if_neg (not_lt.mpr hle), if_pos hcount]
    · intro hstrict
      have hd : 1 ≤ e.resetAt - now := by omega
      have : 60000 ≤ e.resetAt - now + 59999 := by omega
      exact Nat.lt_of_lt_of_le (by decide) (Nat.div_le_div_right this)

theorem checkRateLimit_fixed_window_witness :
    checkRateLimit 100 "c" deniedEntryMap =
      ({ allowed := false, resetIn := some ((3600000 - 100 + 59999) / 60000) },
       deniedEntryMap) ∧
    0 < (3600000 - 100 + 59999) / 60000 := by
  have h := (checkRateLimit_fixed_window 100 "c" deniedEntryMap
    ⟨50, 3600000⟩).2.2.2.1 (by decide) (by decide) (by decide)
  exact ⟨h.1, h.2 (by decide)⟩

/-- C6 counterexample: a client whose window started at time 0 makes its
51st check at time 3600000, the exact `resetAt` instant.  The code resets
only when `now > resetAt`, so this check is still within the window: it is
denied — but with `resetIn = 0`, not a positive retry-after value. -/
theorem checkRateLimit_zero_retryAfter_counterexample :
    (runChecks "c" (List.replicate 50 0 ++ [3600000]) emptyRateLimits).1 =
      List.replicate 50 { allowed := true } ++
        [{ allowed := false, resetIn := some 0 }] := by
  decide

/-- C7: no reachable state has an idle slot together with a non-empty
waiting list, and when a settlement frees a slot while jobs wait, the head
of the waiting list is dispatched into that slot within the same
settlement transition (the decrement and the redispatch are one synchronous
step) — so a free slot next to a non-empty queue never persists. -/
theorem slot_release_dispatches_synchronously {s : QueueState} (hs : Reachable s) :
    (s.activeRequests < MAX_CONCURRENT → s.queue = []) ∧
    (s.queue ≠ [] →
      (settleJob s).activeRequests = s.activeRequests ∧
      (settleJob s).queue = s.queue.tail ∧
      (settleJob s).dispatched = s.dispatched ++ s.queue.take 1) := by
  refine ⟨(reachable_inv hs).2.2.1, ?_⟩
  intro hq
  rcases hqe : s.queue with _ | ⟨j, rest⟩
  · exact absurd hqe hq
  · rw [settleJob_dispatches hs hqe]
    exact ⟨rfl, rfl, rfl⟩

theorem slot_release_dispatches_synchronously_witness :
    (settleJob threeState).activeRequests = threeState.activeRequests ∧
    (settleJob threeState).queue = threeState.queue.tail ∧
    (settleJob threeState).dispatched =
      threeState.dispatched ++ threeState.queue.take 1 :=
  (slot_release_dispatches_synchronously reachable_threeState).2 (by decide)

/-- C8: dispatch is strict FIFO.  In every reachable state the sequence of
jobs dispatched so far, followed by the current waiting list, is exactly
the sequence of accepted submissions in submission order — so each dispatch
takes the oldest waiting entry, and jobs begin execution in the order they
were enqueued. -/
theorem dispatch_fifo_order {s : QueueState} (hs : Reachable s) :
    s.dispatched ++ s.queue = s.accepted :=
  (reachable_inv hs).2.2.2

theorem dispatch_fifo_order_witness :
    threeState.dispatched ++ threeState.queue = threeState.accepted :=
  dispatch_fifo_order reachable_threeState

/-- C9: the progress stream follows the single-path state machine
`queued → processing → {complete | error}`: a successful job emits exactly
`queued`, `processing`, `complete` in that order; a failed job emits
`queued`, `processing`, `error`; each event occurs at most once, and the
terminal event is the last one — nothing follows `complete` or `error`. -/
theorem progress_stream_single_path :
    progressStream true = [.queued, .processing, .complete] ∧
    progressStream false = [.queued, .processing, .error] ∧
    ((progressStream true).count ProgressEvent.queued = 1 ∧
     (progressStream true).count ProgressEvent.processing = 1 ∧
     (progressStream true).count ProgressEvent.complete = 1 ∧
     (progressStream true).count ProgressEvent.error = 0) ∧
    ((progressStream false).count ProgressEvent.queued = 1 ∧
     (progressStream false).count ProgressEvent.processing = 1 ∧
     (progressStream false).count ProgressEvent.complete = 0 ∧
     (progressStream false).count ProgressEvent.error = 1) ∧
    (progressStream true).getLast? = some ProgressEvent.complete ∧
    (progressStream false).getLast? = some ProgressEvent.error := by
  decide

/-- C10: on the path where an audit job runs, the `/audit` handler computes
the cache key before submitting the job, and `createCacheKey` sorts the
`categories` array in place; the job is submitted with that same array, so
the category list the engine receives and records in the report's
`categories` field is the sorted permutation of whatever the client
supplied. -/
theorem audit_categories_sorted (md5hex8 : String → String) (url : String)
    (quick : Bool) (categoriesParam : Option String) (timestamp : String)
    (scores : Scores) (coreWebVitals : CoreWebVitals) (key : String)
    (res : AuditResult)
    (h : auditCategoryFlow md5hex8 url quick categoriesParam timestamp scores
        coreWebVitals = .ok key res) :
    res.categories = jsSort (parseCategories quick categoriesParam) ∧
    res.categories.Sorted jsLe ∧
    res.categories.Perm (parseCategories quick categoriesParam) := by
  unfold auditCategoryFlow at h
  by_cases hinv : 0 < ((parseCategories quick categoriesParam).filter
      fun c => !(validCategories.contains c)).length
  · rw [if_pos hinv] at h
    exact HandlerResult.noConfusion h
  · rw [if_neg hinv] at h
    have h2 := (HandlerResult.ok.injEq _ _ _ _).mp h
    have hcat : res.categories = jsSort (parseCategories quick categoriesParam) := by
      rw [← h2.2]
      rfl
    refine ⟨hcat, ?_, ?_⟩
    · rw [hcat]
      exact List.sorted_insertionSort jsLe _
    · rw [hcat]
      exact List.perm_insertionSort jsLe _

theorem audit_categories_sorted_witness :
    (mkAuditResult ⟨"https://example.com", ["performance", "seo"]⟩ "ts"
        sampleScores sampleVitals).categories =
      jsSort (parseCategories false (some "seo,performance")) ∧
    (mkAuditResult ⟨"https://example.com", ["performance", "seo"]⟩ "ts"
        sampleScores sampleVitals).categories.Sorted jsLe ∧
    (mkAuditResult ⟨"https://example.com", ["performance", "seo"]⟩ "ts"
        sampleScores sampleVitals).categories.Perm
      (parseCategories false (some "seo,performance")) :=
  audit_categories_sorted (fun _ => "0a1b2c3d") "https://example.com" false
    (some "seo,performance") "ts" sampleScores sampleVitals
    "audit:0a1b2c3d:performance,seo"
    (mkAuditResult ⟨"https://example.com", ["performance", "seo"]⟩ "ts"
      sampleScores sampleVitals)
    (by decide)

end VitalsBeacon
